import Mathlib

/-!
Shallow embedding of the Code Annotation & Highlighting Engine of the
aiDebbuger repository (src/components/CodeViewer.tsx and the issue records
of src/unnamed/part_000 / part_001).

Text is modelled as `List Char`.  The JavaScript regular expressions of
`PATTERNS` are modelled as deterministic matchers `Option Char → List Char →
Option Nat`: given the character just before the current position (for the
word-boundary assertion `\b`) and the suffix of the text starting at the
current position, a matcher returns the length of the match anchored there,
when one exists.  `String.prototype.matchAll` is modelled by `scanMatches`,
which scans positions left to right and, after a match of length n at
position i, resumes at i + n, exactly as a global JavaScript regex does.
-/

namespace AiDebugger

/-- Token type of CodeViewer.tsx:
`'text' | 'keyword' | 'string' | 'comment' | 'number' | 'type' | 'function'`. -/
inductive TokType where
  | text
  | keyword
  | string
  | comment
  | number
  | type
  | function
deriving DecidableEq, Repr

/-- `type Token = { text: string; type: ... }` of CodeViewer.tsx. -/
structure Token where
  text : List Char
  type : TokType
deriving DecidableEq, Repr

/-- JavaScript word character, the class `\w = [A-Za-z0-9_]` used by `\b`. -/
def isWordChar (c : Char) : Bool :=
  c.isAlpha || c.isDigit || c == '_'

/-- Word-character test on an optional character (`none` = no character,
e.g. start or end of the text, which is never a word character). -/
def isWordOpt : Option Char → Bool
  | none => false
  | some c => isWordChar c

/-- The JavaScript word-boundary assertion `\b` between two (optional)
adjacent characters: exactly one side is a word character. -/
def atBoundary (prev next : Option Char) : Bool :=
  isWordOpt prev != isWordOpt next

/-- JavaScript line terminators (not matched by `.`). -/
def isLineTerm (c : Char) : Bool :=
  c == '\n' || c == '\r' || c.val == 0x2028 || c.val == 0x2029

/-- The JavaScript whitespace class `\s`. -/
def jsWhitespace (c : Char) : Bool :=
  let v := c.val
  (9 ≤ v && v ≤ 13) || v == 32 || v == 0xa0 || v == 0x1680 ||
  (0x2000 ≤ v && v ≤ 0x200a) || v == 0x2028 || v == 0x2029 ||
  v == 0x202f || v == 0x205f || v == 0x3000 || v == 0xfeff

/-- A matcher: (character before the position, suffix at the position) ↦
length of the match anchored at the position, when there is one. -/
def Matcher : Type := Option Char → List Char → Option Nat

/-- Body of a string literal after its opening quote `q`: the regex fragment
`(?:[^q\\]|\\.)*q`.  Returns the number of characters consumed including the
closing quote.  The escape `\\.` fails on a line terminator because `.` does
not match one; the negated class `[^q\\]` matches any other character. -/
def stringBody (q : Char) : List Char → Option Nat
  | [] => none
  | c :: rest =>
    if c == q then some 1
    else if c == '\\' then
      match rest with
      | [] => none
      | c2 :: rest2 =>
        if isLineTerm c2 then none
        else (stringBody q rest2).map (· + 2)
    else (stringBody q rest).map (· + 1)

/-- tsx strings rule: `/"(?:[^"\\]|\\.)*"|'(?:[^'\\]|\\.)*'|`...`/g`
(double-quoted, single-quoted, backtick-quoted; the three alternatives start
with distinct characters, so alternation order is immaterial). -/
def matchStringsTsx : Matcher := fun _ l =>
  match l with
  | [] => none
  | c :: rest =>
    if c == '"' then (stringBody '"' rest).map (· + 1)
    else if c == '\'' then (stringBody '\'' rest).map (· + 1)
    else if c == Char.ofNat 96 then (stringBody (Char.ofNat 96) rest).map (· + 1)
    else none

/-- python strings rule: `/"(?:[^"\\]|\\.)*"|'(?:[^'\\]|\\.)*'/g`. -/
def matchStringsPy : Matcher := fun _ l =>
  match l with
  | [] => none
  | c :: rest =>
    if c == '"' then (stringBody '"' rest).map (· + 1)
    else if c == '\'' then (stringBody '\'' rest).map (· + 1)
    else none

/-- tsx comments rule `/\/\/.*$/gm`: two slashes, then `.` greedily up to the
end of the line (`$` then holds, the text per line having no terminator). -/
def matchCommentTsx : Matcher := fun _ l =>
  match l with
  | '/' :: '/' :: rest =>
    some (2 + (rest.takeWhile (fun c => !isLineTerm c)).length)
  | _ => none

/-- python comments rule `/#.*$/gm`. -/
def matchCommentPy : Matcher := fun _ l =>
  match l with
  | '#' :: rest =>
    some (1 + (rest.takeWhile (fun c => !isLineTerm c)).length)
  | _ => none

/-- Keyword alternation `\b(w1|w2|...)\b`: a leading word boundary, then the
first alternative that matches followed by a word boundary.  All keyword
characters are word characters, so at most one alternative can succeed. -/
def matchKeywordList (kws : List (List Char)) : Matcher := fun prev l =>
  if atBoundary prev l.head? then
    kws.findSome? (fun kw =>
      if l.take kw.length == kw &&
         atBoundary kw.getLast? (l.drop kw.length).head?
      then some kw.length else none)
  else none

/-- types rule `/\b[A-Z][a-zA-Z0-9]*\b/g`: an uppercase letter at a word
boundary, a greedy alphanumeric run, then a word boundary.  The last
consumed character is a word character, so the trailing `\b` holds exactly
when the next character is not one; backtracking the greedy run cannot help,
since every given-back character is itself a word character. -/
def matchTypeName : Matcher := fun prev l =>
  match l with
  | [] => none
  | c :: rest =>
    if c.isUpper && !isWordOpt prev then
      let run := rest.takeWhile (fun d => d.isAlpha || d.isDigit)
      if !isWordOpt (rest.drop run.length).head?
      then some (1 + run.length) else none
    else none

/-- functions rule `/\b[a-z][a-zA-Z0-9]*\s*(?=\()/g` (python adds `_` to the
identifier class): a lowercase letter at a word boundary, a greedy
identifier run, greedy whitespace, and a lookahead for `(`.  Backtracking
either greedy run only re-exposes a character that is not `(`, so the
maximal-run reading is exact. -/
def matchFnCall (underscoreInClass : Bool) : Matcher := fun prev l =>
  match l with
  | [] => none
  | c :: rest =>
    if c.isLower && !isWordOpt prev then
      let idChar := fun d =>
        d.isAlpha || d.isDigit || (underscoreInClass && d == '_')
      let run := rest.takeWhile idChar
      let ws := (rest.drop run.length).takeWhile jsWhitespace
      if ((rest.drop run.length).drop ws.length).head? == some '('
      then some (1 + run.length + ws.length) else none
    else none

/-- numbers rule `/\b\d+\b/g`: a digit at a word boundary, a greedy digit
run, then a word boundary (the next character is not a word character;
backtracking only re-exposes a digit, which is a word character). -/
def matchNumber : Matcher := fun prev l =>
  match l with
  | [] => none
  | c :: rest =>
    if c.isDigit && !isWordOpt prev then
      let run := rest.takeWhile Char.isDigit
      if !isWordOpt (rest.drop run.length).head?
      then some (1 + run.length) else none
    else none

/-- The tsx keyword alternatives, in the order they appear in the regex. -/
def tsxKeywords : List (List Char) :=
  List.map String.toList
    [ "const", "let", "var", "function", "return", "if", "else", "for",
      "while", "import", "export", "from", "default", "type", "interface",
      "class", "extends", "implements", "new", "this", "try", "catch",
      "finally", "switch", "case", "break", "continue", "async", "await",
      "void", "number", "string", "boolean", "any", "React", "useState",
      "useEffect", "useMemo", "useCallback", "useRef", "useContext" ]

/-- The python keyword alternatives, in the order they appear in the regex. -/
def pyKeywords : List (List Char) :=
  List.map String.toList
    [ "def", "class", "if", "else", "elif", "for", "while", "return",
      "import", "from", "as", "pass", "break", "continue", "try", "except",
      "finally", "raise", "with", "lambda", "global", "nonlocal", "True",
      "False", "None" ]

/-- One language's six rule categories, mirroring `PATTERNS[lang]`. -/
structure LangPatterns where
  strings : Matcher
  comments : Matcher
  keywords : Matcher
  numbers : Matcher
  types : Matcher
  functions : Matcher

/-- The two supported language profiles. -/
inductive Lang where
  | tsx
  | python
deriving DecidableEq, Repr

/-- The `PATTERNS` table of CodeViewer.tsx. -/
def PATTERNS : Lang → LangPatterns
  | .tsx =>
    { strings := matchStringsTsx
      comments := matchCommentTsx
      keywords := matchKeywordList tsxKeywords
      numbers := matchNumber
      types := matchTypeName
      functions := matchFnCall false }
  | .python =>
    { strings := matchStringsPy
      comments := matchCommentPy
      keywords := matchKeywordList pyKeywords
      numbers := matchNumber
      types := matchTypeName
      functions := matchFnCall true }

/-- One step of `text.matchAll(pattern)`, fuelled by the text length: at each
position try the matcher; on a match of length n record `(i, n)` and resume
after it, otherwise advance one character.  The character preceding the
resumption point is threaded through for the `\b` assertion. -/
def scanFuel (m : Matcher) : Nat → Option Char → List Char → Nat → List (Nat × Nat)
  | 0, _, _, _ => []
  | _ + 1, _, [], _ => []
  | fuel + 1, prev, c :: rest, i =>
    match m prev (c :: rest) with
    | some n =>
      let adv := max n 1
      (i, n) :: scanFuel m fuel ((c :: rest)[adv - 1]?) ((c :: rest).drop adv) (i + adv)
    | none => scanFuel m fuel (some c) rest (i + 1)

/-- `Array.from(text.matchAll(pattern))`, as (position, length) pairs. -/
def scanMatches (m : Matcher) (text : List Char) : List (Nat × Nat) :=
  scanFuel m (text.length + 1) none text 0

/-- The match loop inside `applyPattern` of CodeViewer.tsx: from `lastIndex`,
for each match push the plain text before it and the matched token, and
after the last match push the plain remainder when one is left. -/
def splitMatches (text : List Char) (ty : TokType) : Nat → List (Nat × Nat) → List Token
  | lastIndex, [] =>
    if lastIndex < text.length then [⟨text.drop lastIndex, TokType.text⟩] else []
  | lastIndex, (i, n) :: rest =>
    (if lastIndex < i then [⟨(text.drop lastIndex).take (i - lastIndex), TokType.text⟩] else []) ++
    (⟨(text.drop i).take n, ty⟩ :: splitMatches text ty (i + n) rest)

/-- The body of the `segments.forEach` inside `applyPattern` of
CodeViewer.tsx: a segment not of type `'text'` passes through unchanged; a
`'text'` segment with no match passes through, and one with matches is split
around them. -/
def processSegment (m : Matcher) (ty : TokType) (seg : Token) : List Token :=
  if seg.type != TokType.text then [seg]
  else
    let ms := scanMatches m seg.text
    if ms.isEmpty then [seg]
    else splitMatches seg.text ty 0 ms

/-- `applyPattern` of CodeViewer.tsx: rebuild the segment list by processing
each segment in order. -/
def applyPattern (m : Matcher) (ty : TokType) (segments : List Token) : List Token :=
  (segments.map (processSegment m ty)).flatten

/-- `tokenizeLine` of CodeViewer.tsx: one initial `'text'` segment, then the
six rule categories in source order
(strings, comments, keywords, types, functions, numbers). -/
def tokenizeLine (line : List Char) (lang : Lang) : List Token :=
  let rules := PATTERNS lang
  let s0 : List Token := [⟨line, TokType.text⟩]
  let s1 := applyPattern rules.strings TokType.string s0
  let s2 := applyPattern rules.comments TokType.comment s1
  let s3 := applyPattern rules.keywords TokType.keyword s2
  let s4 := applyPattern rules.types TokType.type s3
  let s5 := applyPattern rules.functions TokType.function s4
  applyPattern rules.numbers TokType.number s5

/-- `l` starts with `pre`. -/
def startsWithL (pre l : List Char) : Bool :=
  l.take pre.length == pre

/-- `String.prototype.includes`: `needle` occurs as a contiguous substring of
`hay`. -/
def containsSub (hay needle : List Char) : Bool :=
  match hay with
  | [] => needle.isEmpty
  | _ :: rest => startsWithL needle hay || containsSub rest needle

/-- `detectLanguage` of CodeViewer.tsx:
`code.includes('def ') && (code.includes(':') || code.includes('import '))`
selects python, anything else tsx. -/
def detectLanguage (code : List Char) : Lang :=
  if containsSub code ("def ".toList) &&
     (containsSub code (":".toList) || containsSub code ("import ".toList))
  then .python else .tsx

/-- The per-line token computation of the CodeViewer render loop:
`line.length < 500 ? tokenizeLine(line, lang) : [{ text: line, type: 'text' }]`. -/
def renderLineTokens (line : List Char) (lang : Lang) : List Token :=
  if line.length < 500 then tokenizeLine line lang
  else [⟨line, TokType.text⟩]

/-- Risk levels of src/unnamed/part_000 (`enum RiskLevel`). -/
inductive RiskLevel where
  | low
  | medium
  | high
deriving DecidableEq, Repr

/-- The fields of `AnalysisItem` (src/unnamed/part_000) that the annotation
engine reads; the remaining fields are presentation text opaque to it. -/
structure AnalysisItem where
  id : List Char
  lineStart : Nat
  whyDetection : List Char
  risk : RiskLevel
deriving DecidableEq, Repr

/-- `Map.prototype.get` on an insertion-ordered association list. -/
def mapGet (m : List (Nat × AnalysisItem)) (k : Nat) : Option AnalysisItem :=
  match m with
  | [] => none
  | (k', v) :: rest => if k' = k then some v else mapGet rest k

/-- `Map.prototype.set`: overwrite the entry of an existing key in place,
otherwise append a new entry. -/
def mapSet (m : List (Nat × AnalysisItem)) (k : Nat) (v : AnalysisItem) :
    List (Nat × AnalysisItem) :=
  match m with
  | [] => [(k, v)]
  | (k', v') :: rest =>
    if k' = k then (k, v) :: rest else (k', v') :: mapSet rest k v

/-- The body of the `issues.forEach` that builds `issueMap` in
CodeViewer.tsx: for each issue with a truthy `lineStart`, insert it when no
entry exists, or when the replacement condition
`existing.whyDetection.includes('Regex') === false &&
issue.whyDetection.includes('Regex')` holds. -/
def issueStep (m : List (Nat × AnalysisItem)) (issue : AnalysisItem) :
    List (Nat × AnalysisItem) :=
  if issue.lineStart ≠ 0 then
    match mapGet m issue.lineStart with
    | none => mapSet m issue.lineStart issue
    | some ex =>
      if !containsSub ex.whyDetection ("Regex".toList) &&
         containsSub issue.whyDetection ("Regex".toList)
      then mapSet m issue.lineStart issue
      else m
  else m

/-- The `issueMap` construction of CodeViewer.tsx: a stable left-to-right
scan over the issue list, starting from the empty map. -/
def buildIssueMap (issues : List AnalysisItem) : List (Nat × AnalysisItem) :=
  issues.foldl issueStep []

/-- The per-line decision outputs of the CodeViewer render loop. -/
structure RenderDesc where
  hasIssue : Bool
  isSelected : Bool
  isFixed : Bool
deriving DecidableEq, Repr

/-- The per-line state computation of the CodeViewer render loop:
`issue = issueMap.get(lineNumber)`, `hasIssue = !!issue`,
`isSelected = issue?.id === selectedIssueId` (strict equality, false when
either side is undefined/null), `isFixed = issue ? fixedIssueIds.has(issue.id)
: false`. -/
def renderDescriptor (m : List (Nat × AnalysisItem))
    (selectedIssueId : Option (List Char)) (fixedIssueIds : List (List Char))
    (lineNumber : Nat) : RenderDesc :=
  let issue := mapGet m lineNumber
  { hasIssue := issue.isSome
    isSelected :=
      match issue, selectedIssueId with
      | some i, some s => i.id == s
      | _, _ => false
    isFixed :=
      match issue with
      | some i => fixedIssueIds.contains i.id
      | none => false }

/-- The lines of a document, split on line-feed boundaries (spec §6). -/
def linesOf (code : List Char) : List (List Char) :=
  code.splitOn '\n'

/-- Modelled from the spec (§4.1), for comparison with `detectLanguage`: the
document "contains a line-start marker characteristic of [the python]
profile's block-definition syntax" (a line starting with `def `) "and either
a colon-terminated header" (a line ending in `:`) "or a module-import
statement characteristic of that same profile" (a line starting with
`import `). -/
def specSelectsPython (code : List Char) : Prop :=
  (∃ l ∈ linesOf code, startsWithL ("def ".toList) l = true) ∧
  ((∃ l ∈ linesOf code, l.getLast? = some ':') ∨
   (∃ l ∈ linesOf code, startsWithL ("import ".toList) l = true))

/-! ## Segmenter lemmas -/

/-- Concatenation, in order, of the token texts of a segment list. -/
def concatTexts (ts : List Token) : List Char :=
  (ts.map Token.text).flatten

@[simp] theorem concatTexts_nil : concatTexts [] = [] := rfl

@[simp] theorem concatTexts_cons (t : Token) (ts : List Token) :
    concatTexts (t :: ts) = t.text ++ concatTexts ts := by
  simp [concatTexts]

@[simp] theorem concatTexts_append (a b : List Token) :
    concatTexts (a ++ b) = concatTexts a ++ concatTexts b := by
  simp [concatTexts]

/-- A match list is ordered and non-overlapping, starting at or after `lb`:
each match starts at or after the bound, and the bound then moves past it. -/
def MatchesLB : Nat → List (Nat × Nat) → Prop
  | _, [] => True
  | lb, (i, n) :: rest => lb ≤ i ∧ MatchesLB (i + n) rest

theorem MatchesLB.mono : ∀ {ms : List (Nat × Nat)} {lb lb' : Nat},
    lb' ≤ lb → MatchesLB lb ms → MatchesLB lb' ms
  | [], _, _, _, _ => trivial
  | (_, _) :: _, _, _, h, ⟨h1, h2⟩ => ⟨le_trans h h1, h2⟩

/-- The scanner only produces ordered, non-overlapping matches at or after
its starting position. -/
theorem scanFuel_lb (m : Matcher) :
    ∀ (fuel : Nat) (prev : Option Char) (l : List Char) (i : Nat),
      MatchesLB i (scanFuel m fuel prev l i) := by
  intro fuel
  induction fuel with
  | zero => intro prev l i; simp [scanFuel, MatchesLB]
  | succ f ih =>
    intro prev l i
    cases l with
    | nil => simp [scanFuel, MatchesLB]
    | cons c rest =>
      rcases h : m prev (c :: rest) with _ | n
      · simpa [scanFuel, h] using
          MatchesLB.mono (Nat.le_succ i) (ih (some c) rest (i + 1))
      · simp only [scanFuel, h, MatchesLB]
        refine ⟨le_refl i, MatchesLB.mono ?_ (ih _ _ _)⟩
        have : n ≤ max n 1 := le_max_left n 1
        omega

theorem scanMatches_lb (m : Matcher) (text : List Char) :
    MatchesLB 0 (scanMatches m text) :=
  scanFuel_lb m (text.length + 1) none text 0

/-- Splitting a text around an ordered, non-overlapping match list never
gains, loses, or reorders characters. -/
theorem concat_splitMatches (text : List Char) (ty : TokType) :
    ∀ (ms : List (Nat × Nat)) (lastIndex : Nat), MatchesLB lastIndex ms →
      concatTexts (splitMatches text ty lastIndex ms) = text.drop lastIndex := by
  have key : ∀ (a b : Nat), a ≤ b →
      (text.drop a).take (b - a) ++ text.drop b = text.drop a := by
    intro a b hab
    have h1 : text.drop b = (text.drop a).drop (b - a) := by
      rw [List.drop_drop]
      congr 1
      omega
    rw [h1, List.take_append_drop]
  intro ms
  induction ms with
  | nil =>
    intro L _
    by_cases h : L < text.length
    · simp [splitMatches, h]
    · simp only [splitMatches, if_neg h, concatTexts_nil]
      rw [List.drop_eq_nil_iff.mpr (by omega)]
  | cons p rest ih =>
    obtain ⟨i, n⟩ := p
    intro L hLB
    obtain ⟨hLi, hrest⟩ := hLB
    have ihr := ih (i + n) hrest
    have hmid : (text.drop i).take n ++ text.drop (i + n) = text.drop i := by
      have h1 : text.drop (i + n) = (text.drop i).drop n := by
        rw [List.drop_drop]
      rw [h1, List.take_append_drop]
    by_cases h : L < i
    · simp only [splitMatches, if_pos h, List.singleton_append, concatTexts_cons, ihr]
      rw [hmid, key L i (le_of_lt h)]
    · have hLeq : L = i := by omega
      subst hLeq
      simp only [splitMatches, if_neg h, List.nil_append, concatTexts_cons, ihr]
      exact hmid

/-- Processing one segment preserves its text. -/
theorem concat_processSegment (m : Matcher) (ty : TokType) (seg : Token) :
    concatTexts (processSegment m ty seg) = seg.text := by
  unfold processSegment
  by_cases h : seg.type = TokType.text
  · simp only [h, bne_self_eq_false, Bool.false_eq_true, if_false]
    by_cases h2 : (scanMatches m seg.text).isEmpty
    · simp [h2]
    · simp only [h2, Bool.false_eq_true, if_false]
      simpa using concat_splitMatches seg.text ty (scanMatches m seg.text) 0
        (scanMatches_lb m seg.text)
  · simp [bne_iff_ne, h]

/-- One pipeline stage preserves the concatenation of all segment texts. -/
theorem concat_applyPattern (m : Matcher) (ty : TokType) (segs : List Token) :
    concatTexts (applyPattern m ty segs) = concatTexts segs := by
  induction segs with
  | nil => rfl
  | cons seg rest ih =>
    simp only [applyPattern, List.map_cons, List.flatten_cons] at ih ⊢
    rw [concatTexts_append, ih, concat_processSegment, concatTexts_cons]

/-- C1: for every input line `L` and every supported language profile `P`,
concatenating the text fields of the tokens returned by
`tokenizeLine(L, P)` in output order reproduces `L` exactly: no characters
are gained, lost, or reordered. -/
theorem tokenizeLine_concat (line : List Char) (lang : Lang) :
    concatTexts (tokenizeLine line lang) = line := by
  simp only [tokenizeLine]
  rw [concat_applyPattern, concat_applyPattern, concat_applyPattern,
    concat_applyPattern, concat_applyPattern, concat_applyPattern]
  simp [concatTexts]

/-- A match of the category's pattern becomes one whole token of the
category's class in the split segment list. -/
theorem mem_splitMatches (text : List Char) (ty : TokType) {i n : Nat} :
    ∀ (ms : List (Nat × Nat)) (L : Nat), (i, n) ∈ ms →
      Token.mk ((text.drop i).take n) ty ∈ splitMatches text ty L ms := by
  intro ms
  induction ms with
  | nil => intro L h; simp at h
  | cons p rest ih =>
    intro L hmem
    rcases List.mem_cons.mp hmem with heq | hmem2
    · rw [← heq]
      simp [splitMatches]
    · obtain ⟨j, k⟩ := p
      simp only [splitMatches, List.mem_append, List.mem_cons]
      right
      right
      exact ih (j + k) hmem2

/-- Segments already classified by an earlier category are never rescanned:
a non-`'text'` segment survives every later pipeline stage. -/
theorem mem_applyPattern_of_mem {tok : Token} {segs : List Token}
    (m : Matcher) (ty : TokType) (h : tok ∈ segs) (hty : tok.type ≠ TokType.text) :
    tok ∈ applyPattern m ty segs := by
  have hself : tok ∈ processSegment m ty tok := by
    simp [processSegment, bne_iff_ne, hty]
  exact List.mem_flatten.mpr
    ⟨processSegment m ty tok, List.mem_map_of_mem _ h, hself⟩

/-- Each match of a category's pattern on a whole-line `'text'` segment
appears as a single token of the category's class after that stage. -/
theorem mem_applyPattern_line (m : Matcher) (ty : TokType) {line : List Char}
    {i n : Nat} (h : (i, n) ∈ scanMatches m line) :
    Token.mk ((line.drop i).take n) ty ∈
      applyPattern m ty [⟨line, TokType.text⟩] := by
  have hne : ¬ (scanMatches m line).isEmpty = true := by
    cases hs : scanMatches m line
    · rw [hs] at h; simp at h
    · simp [List.isEmpty]
  simp only [applyPattern, List.map_cons, List.map_nil, List.flatten_cons,
    List.flatten_nil, List.append_nil, processSegment, bne_self_eq_false,
    Bool.false_eq_true, if_false, hne]
  exact mem_splitMatches line ty (scanMatches m line) 0 h

/-- C4: every complete string literal found by the string rule (which runs
before the keyword, type, identifier-call and number rules) is classified
entirely as one single string token of the final tokenization, so any
keyword-like substring inside it is never split into keyword or plain
tokens. -/
theorem stringLiteral_single_token (line : List Char) (lang : Lang) (i n : Nat)
    (h : (i, n) ∈ scanMatches (PATTERNS lang).strings line) :
    Token.mk ((line.drop i).take n) TokType.string ∈ tokenizeLine line lang := by
  simp only [tokenizeLine]
  apply mem_applyPattern_of_mem _ _ _ (by simp)
  apply mem_applyPattern_of_mem _ _ _ (by simp)
  apply mem_applyPattern_of_mem _ _ _ (by simp)
  apply mem_applyPattern_of_mem _ _ _ (by simp)
  apply mem_applyPattern_of_mem _ _ _ (by simp)
  exact mem_applyPattern_line (PATTERNS lang).strings TokType.string h

/-- Witness for C4: on the line `x = "if (x)"` the tsx string rule matches
the literal `"if (x)"` at position 4, and the whole literal — keyword `if`
included — is one string token of the tokenization. -/
theorem stringLiteral_single_token_witness :
    (4, 8) ∈ scanMatches (PATTERNS Lang.tsx).strings ("x = \"if (x)\"".toList) ∧
    Token.mk (("x = \"if (x)\"".toList.drop 4).take 8) TokType.string ∈
      tokenizeLine ("x = \"if (x)\"".toList) Lang.tsx :=
  ⟨by decide, stringLiteral_single_token _ _ 4 8 (by decide)⟩

/-- C5: the CodeViewer render loop skips segmentation exactly for lines at
or above the 500-character threshold, returning one plain token regardless
of content, and runs the full rule pipeline on every shorter line. -/
theorem renderLineTokens_threshold (line : List Char) (lang : Lang) :
    (500 ≤ line.length →
      renderLineTokens line lang = [Token.mk line TokType.text]) ∧
    (line.length < 500 →
      renderLineTokens line lang = tokenizeLine line lang) := by
  constructor
  · intro h
    have h2 : ¬ line.length < 500 := by omega
    simp [renderLineTokens, h2]
  · intro h
    simp [renderLineTokens, h]

/-- Witness for C5: a 500-character line is returned as one plain token, and
a 1-character line goes through the full pipeline. -/
theorem renderLineTokens_threshold_witness :
    renderLineTokens (List.replicate 500 'a') Lang.tsx =
      [Token.mk (List.replicate 500 'a') TokType.text] ∧
    renderLineTokens ['a'] Lang.tsx = tokenizeLine ['a'] Lang.tsx :=
  ⟨(renderLineTokens_threshold _ _).1
     (by simp only [List.length_replicate]; exact le_refl 500),
   (renderLineTokens_threshold _ _).2 (by decide)⟩

/-- Counterexample to C6 as stated: segmenting the empty string yields one
token (with empty text, of class plain), not zero tokens. -/
theorem tokenizeLine_empty_counterexample :
    tokenizeLine [] Lang.tsx = [Token.mk [] TokType.text] ∧
    tokenizeLine [] Lang.tsx ≠ [] := by
  have h1 : tokenizeLine [] Lang.tsx = [Token.mk [] TokType.text] := rfl
  exact ⟨h1, by rw [h1]; exact List.cons_ne_nil _ _⟩

/-- C6 (amended): for every language profile, segmenting the empty string
produces exactly one token, whose text is empty and whose class is plain. -/
theorem tokenizeLine_empty (lang : Lang) :
    tokenizeLine [] lang = [Token.mk [] TokType.text] := by
  cases lang <;> rfl

/-! ## Issue-index lemmas -/

theorem mapGet_mapSet (k : Nat) (v : AnalysisItem) (n : Nat) :
    ∀ (m : List (Nat × AnalysisItem)),
      mapGet (mapSet m k v) n = if k = n then some v else mapGet m n := by
  intro m
  induction m with
  | nil => by_cases h : k = n <;> simp [mapSet, mapGet, h]
  | cons p rest ih =>
    obtain ⟨k', v'⟩ := p
    simp only [mapSet]
    by_cases h1 : k' = k
    · subst h1
      simp only [if_pos rfl]
      by_cases h2 : k' = n <;> simp [mapGet, h2]
    · simp only [if_neg h1, mapGet]
      by_cases h2 : k' = n
      · subst h2
        have h3 : ¬ (k = k') := fun hh => h1 hh.symm
        simp [mapGet, h3]
      · simp [mapGet, h2, ih]

/-- One step of the index build either leaves a line's entry unchanged or
installs the scanned issue at its own (non-zero) `lineStart`. -/
theorem issueStep_get (m : List (Nat × AnalysisItem)) (x : AnalysisItem) (n : Nat) :
    mapGet (issueStep m x) n = mapGet m n ∨
    (n = x.lineStart ∧ x.lineStart ≠ 0 ∧ mapGet (issueStep m x) n = some x) := by
  unfold issueStep
  split
  next h0 =>
    split
    next hg =>
      by_cases hn : x.lineStart = n
      · subst hn
        right
        exact ⟨rfl, h0, by rw [mapGet_mapSet]; simp⟩
      · left
        rw [mapGet_mapSet]
        simp [hn]
    next ex hg =>
      split
      next hc =>
        by_cases hn : x.lineStart = n
        · subst hn
          right
          exact ⟨rfl, h0, by rw [mapGet_mapSet]; simp⟩
        · left
          rw [mapGet_mapSet]
          simp [hn]
      next hc => left; rfl
  next h0 => left; rfl

/-- Every entry the scan ever installs comes from the scanned prefix and is
keyed by its own non-zero `lineStart`. -/
theorem foldl_issueStep_sound (P : Nat → AnalysisItem → Prop) :
    ∀ (l : List AnalysisItem) (m0 : List (Nat × AnalysisItem)),
      (∀ n r, mapGet m0 n = some r → P n r) →
      (∀ r ∈ l, r.lineStart ≠ 0 → P r.lineStart r) →
      ∀ n r, mapGet (l.foldl issueStep m0) n = some r → P n r := by
  intro l
  induction l with
  | nil => intro m0 h0 _ n r h; exact h0 n r h
  | cons x xs ih =>
    intro m0 h0 hl n r h
    refine ih (issueStep m0 x) ?_ (fun r' hr' => hl r' (List.mem_cons_of_mem _ hr')) n r h
    intro n' r' h'
    rcases issueStep_get m0 x n' with heq | ⟨hn, hne, hx⟩
    · exact h0 n' r' (heq ▸ h')
    · rw [hx] at h'
      cases h'
      subst hn
      exact hl x (List.mem_cons_self _ _) hne

/-- Soundness of the issue index: every entry is a scanned record, keyed by
its own non-zero `lineStart`. -/
theorem buildIssueMap_sound (issues : List AnalysisItem) :
    ∀ n r, mapGet (buildIssueMap issues) n = some r →
      r ∈ issues ∧ r.lineStart = n ∧ n ≠ 0 := by
  refine foldl_issueStep_sound _ issues [] ?_ ?_
  · intro n r h; simp [mapGet] at h
  · intro r hr hne; exact ⟨hr, rfl, hne⟩

/-- The render loop marks a line selected exactly when the line's winning
issue exists and carries the selected id. -/
theorem isSelected_iff (m : List (Nat × AnalysisItem)) (s : List Char)
    (fixed : List (List Char)) (ln : Nat) :
    (renderDescriptor m (some s) fixed ln).isSelected = true ↔
      ∃ r, mapGet m ln = some r ∧ r.id = s := by
  simp only [renderDescriptor]
  cases h : mapGet m ln <;> simp [h]

/-- With pairwise-distinct record ids, a selected id makes at most one line
selected. -/
theorem selected_line_unique (issues : List AnalysisItem) (s : List Char)
    (fixed : List (List Char)) (hnodup : (issues.map AnalysisItem.id).Nodup)
    {n m : Nat}
    (hn : (renderDescriptor (buildIssueMap issues) (some s) fixed n).isSelected = true)
    (hm : (renderDescriptor (buildIssueMap issues) (some s) fixed m).isSelected = true) :
    n = m := by
  obtain ⟨rn, hgn, hin⟩ := (isSelected_iff _ _ _ _).mp hn
  obtain ⟨rm, hgm, him⟩ := (isSelected_iff _ _ _ _).mp hm
  obtain ⟨hmemn, hlinen, _⟩ := buildIssueMap_sound issues n rn hgn
  obtain ⟨hmemm, hlinem, _⟩ := buildIssueMap_sound issues m rm hgm
  have hr : rn = rm :=
    List.inj_on_of_nodup_map hnodup hmemn hmemm (by rw [hin, him])
  rw [← hlinen, ← hlinem, hr]

/-! ## Concrete records for witnesses and counterexamples -/

/-- A heuristic (non-pattern) finding anchored at line 5. -/
def heuristicAt5 : AnalysisItem :=
  ⟨"a".toList, 5, "heuristic".toList, RiskLevel.low⟩

/-- A security finding at line 5 with the scanner's actual wording
(src/unnamed/part_001): `Known high-risk pattern in production code`
shortened to the claim's `Known high-risk pattern`. -/
def patternAt5 : AnalysisItem :=
  ⟨"b".toList, 5, "Known high-risk pattern".toList, RiskLevel.high⟩

/-- A second equal-precedence (non-pattern) finding at line 5. -/
def plainAt5b : AnalysisItem :=
  ⟨"b".toList, 5, "heuristic".toList, RiskLevel.medium⟩

/-- A heuristic finding anchored at line 7. -/
def heuristicAt7 : AnalysisItem :=
  ⟨"c".toList, 7, "heuristic".toList, RiskLevel.low⟩

/-- C2 (code-bug evidence): on the claim's own scenario the index keeps the
first record `a`: the precedence test looks for the substring `Regex` in
`whyDetection`, which the security scanner's actual wording (`Known
high-risk pattern ...`) does not contain, so the pattern-based record `b`
never outweighs `a`, contradicting the comment above the map build (`If a
security issue exists, it takes precedence`). -/
theorem securityPrecedence_fails :
    mapGet (buildIssueMap [heuristicAt5, patternAt5]) 5 = some heuristicAt5 ∧
    containsSub patternAt5.whyDetection ("Regex".toList) = false := by
  decide

/-- C3: the per-line render descriptor satisfies exactly
`hasIssue = index.has(n)`,
`isSelected = hasIssue && index.get(n).id === selectedIssueId`, and
`isFixed = hasIssue && fixedSet.has(index.get(n).id)`. -/
theorem renderDescriptor_contract (issues : List AnalysisItem)
    (sel : Option (List Char)) (fixed : List (List Char)) (n : Nat) :
    ((renderDescriptor (buildIssueMap issues) sel fixed n).hasIssue = true ↔
      (mapGet (buildIssueMap issues) n).isSome = true) ∧
    ((renderDescriptor (buildIssueMap issues) sel fixed n).isSelected = true ↔
      ∃ r, mapGet (buildIssueMap issues) n = some r ∧ sel = some r.id) ∧
    ((renderDescriptor (buildIssueMap issues) sel fixed n).isFixed = true ↔
      ∃ r, mapGet (buildIssueMap issues) n = some r ∧ r.id ∈ fixed) := by
  refine ⟨Iff.rfl, ?_, ?_⟩
  · cases sel with
    | none =>
      simp only [renderDescriptor]
      cases h : mapGet (buildIssueMap issues) n <;> simp [h]
    | some s =>
      rw [isSelected_iff]
      constructor
      · rintro ⟨r, hr, hid⟩
        exact ⟨r, hr, by rw [hid]⟩
      · rintro ⟨r, hr, hid⟩
        exact ⟨r, hr, (Option.some_inj.mp hid).symm⟩
  · simp only [renderDescriptor]
    cases h : mapGet (buildIssueMap issues) n <;> simp [h]

/-- Counterexample to C7 as stated: with two equal-precedence records on
line 5, selecting the id of the second record — anchored at line 5 but the
loser of the line's tie-break — leaves line 5 unselected. -/
theorem selection_roundTrip_counterexample :
    plainAt5b ∈ [heuristicAt5, plainAt5b] ∧ plainAt5b.lineStart = 5 ∧
    (renderDescriptor (buildIssueMap [heuristicAt5, plainAt5b])
      (some plainAt5b.id) [] 5).isSelected = false := by
  decide

/-- C7 (amended): for issue sets with pairwise-distinct record ids, if the
selected id is the id of the index's winning record at line `n`, then the
descriptor of line `n` yields `isSelected = true` and the descriptor of
every other line yields `isSelected = false`. -/
theorem selection_roundTrip (issues : List AnalysisItem) (n : Nat)
    (r : AnalysisItem) (s : List Char) (fixed : List (List Char))
    (hnodup : (issues.map AnalysisItem.id).Nodup)
    (hwin : mapGet (buildIssueMap issues) n = some r)
    (hsel : s = r.id) :
    (renderDescriptor (buildIssueMap issues) (some s) fixed n).isSelected = true ∧
    ∀ m, m ≠ n →
      (renderDescriptor (buildIssueMap issues) (some s) fixed m).isSelected = false := by
  constructor
  · exact (isSelected_iff _ _ _ _).mpr ⟨r, hwin, hsel.symm⟩
  · intro m hm
    cases hb : (renderDescriptor (buildIssueMap issues) (some s) fixed m).isSelected with
    | false => rfl
    | true =>
      exact absurd (selected_line_unique issues s fixed hnodup hb
        ((isSelected_iff _ _ _ _).mpr ⟨r, hwin, hsel.symm⟩)) hm

/-- Witness for the amended C7 at a concrete input: selecting the winner of
line 5 selects line 5 and not line 7. -/
theorem selection_roundTrip_witness :
    (renderDescriptor (buildIssueMap [heuristicAt5, heuristicAt7])
      (some ("a".toList)) [] 5).isSelected = true ∧
    (renderDescriptor (buildIssueMap [heuristicAt5, heuristicAt7])
      (some ("a".toList)) [] 7).isSelected = false := by
  have h := selection_roundTrip [heuristicAt5, heuristicAt7] 5 heuristicAt5
    ("a".toList) [] (by decide) (by decide) (by decide)
  exact ⟨h.1, h.2 7 (by decide)⟩

/-- C8: a selected id that is the id of no record of the current issue set
makes no line selected: the stale selection silently behaves as no
selection. -/
theorem staleSelection_noSelect (issues : List AnalysisItem) (s : List Char)
    (fixed : List (List Char)) (h : ∀ r ∈ issues, r.id ≠ s) :
    ∀ n, (renderDescriptor (buildIssueMap issues) (some s) fixed n).isSelected = false := by
  intro n
  cases hb : (renderDescriptor (buildIssueMap issues) (some s) fixed n).isSelected with
  | false => rfl
  | true =>
    obtain ⟨r, hget, hid⟩ := (isSelected_iff _ _ _ _).mp hb
    exact absurd hid (h r (buildIssueMap_sound issues n r hget).1)

/-- Witness for C8 at a concrete input: the stale id `zzz` selects nothing
on the issue set's own line. -/
theorem staleSelection_noSelect_witness :
    (renderDescriptor (buildIssueMap [heuristicAt5]) (some ("zzz".toList))
      [] 5).isSelected = false :=
  staleSelection_noSelect [heuristicAt5] ("zzz".toList) [] (by decide) 5

/-- C10: index soundness: every entry of the issue index is an input record
keyed by its own non-zero `lineStart` (records with `lineStart` 0 never
appear); consequently, with pairwise-distinct record ids, a selected id
renders at most one line selected. -/
theorem issueIndex_sound (issues : List AnalysisItem) :
    (∀ n r, mapGet (buildIssueMap issues) n = some r →
      r ∈ issues ∧ r.lineStart = n ∧ n ≠ 0) ∧
    ((issues.map AnalysisItem.id).Nodup →
      ∀ (s : List Char) (fixed : List (List Char)) (n m : Nat),
        (renderDescriptor (buildIssueMap issues) (some s) fixed n).isSelected = true →
        (renderDescriptor (buildIssueMap issues) (some s) fixed m).isSelected = true →
        n = m) :=
  ⟨buildIssueMap_sound issues,
   fun hnodup s fixed _ _ hn hm => selected_line_unique issues s fixed hnodup hn hm⟩

/-- Witness for C10 at a concrete input. -/
theorem issueIndex_sound_witness :
    (heuristicAt5 ∈ [heuristicAt5] ∧ heuristicAt5.lineStart = 5 ∧ 5 ≠ 0) ∧
    (5 : Nat) = 5 := by
  constructor
  · exact (issueIndex_sound [heuristicAt5]).1 5 heuristicAt5 (by decide)
  · exact (issueIndex_sound [heuristicAt5]).2 (by decide) ("a".toList) [] 5 5
      (by decide) (by decide)

/-- Counterexample to C9 as stated: the document `typedef a: b` has no line
starting with the python block-definition marker, no colon-terminated line
and no import line, yet the detector selects the python profile, because it
tests plain substring containment and `typedef ` contains `def `. -/
theorem detectLanguage_counterexample :
    detectLanguage ("typedef a: b".toList) = Lang.python ∧
    ¬ specSelectsPython ("typedef a: b".toList) := by
  constructor
  · decide
  · intro h
    unfold specSelectsPython at h
    revert h
    decide

/-- C9 (amended): profile detection is a deterministic function of the whole
document that selects the python profile exactly when the document contains
the substring `def ` anywhere and also contains `:` or `import ` anywhere;
every other document falls back to the tsx profile. -/
theorem detectLanguage_amended (code : List Char) :
    (detectLanguage code = Lang.python ↔
      (containsSub code ("def ".toList) = true ∧
        (containsSub code (":".toList) = true ∨
         containsSub code ("import ".toList) = true))) ∧
    (detectLanguage code = Lang.python ∨ detectLanguage code = Lang.tsx) := by
  constructor
  · simp only [detectLanguage]
    by_cases h : (containsSub code ("def ".toList) &&
        (containsSub code (":".toList) || containsSub code ("import ".toList))) = true
    · rw [if_pos h]
      simp only [Bool.and_eq_true, Bool.or_eq_true] at h
      exact iff_of_true rfl h
    · rw [if_neg h]
      simp only [Bool.and_eq_true, Bool.or_eq_true] at h
      exact iff_of_false (by decide) h
  · simp only [detectLanguage]
    by_cases h : (containsSub code ("def ".toList) &&
        (containsSub code (":".toList) || containsSub code ("import ".toList))) = true
    · rw [if_pos h]; left; rfl
    · rw [if_neg h]; right; rfl

end AiDebugger
